import Mathlib

/-!
Shallow embedding of the pairing and ranking engine of the chess-tournament
repository (`chess_tournament.py`, `dutch_tournament.py`).

Conventions of the embedding:
* Python `float` values (points, badness) are modelled as `ℚ`; the quantities the
  engine manipulates (multiples of 0.5, quotients by 500 / 10000) are exact.
* Mutation of `Player` objects is modelled by returning updated copies; a list of
  players keyed by `id` plays the role of the object heap where aliasing matters.
* Python exceptions are modelled with `Except String`; a `print`-and-return is a
  plain return.
* `random.choice` (used once, in bye selection) is modelled by an explicit `pick`
  function parameter, matching the spec's "injectable random source".
* Python's stable `list.sort` is modelled by `stableSort`, a structurally
  recursive stable insertion sort (kernel-computable, unlike `List.mergeSort`).
* The recursive pairing search is modelled with an explicit fuel argument; the
  entry point supplies fuel `length + 1`, which always exceeds the recursion
  depth of the Python original (the list shrinks by two per level).
* Fields of `Player` that no modelled operation reads (`past_matches`,
  `past_colors`, the bonus points) are omitted.
-/

/-- Embeds the `Player` object state of `chess_tournament.py`. -/
structure Player where
  id : ℕ
  elo : ℤ
  points : ℚ
  past_opponents : List ℕ
  color_balance_counter : ℤ
  past_results : List String
  had_regular_bye : Bool
  has_bye_this_round : Bool
  is_present : Bool
deriving DecidableEq

/-- A placeholder player used only as the default of total list-head/last
helpers (the code paths using it are guarded by non-emptiness). -/
def dummyPlayer : Player :=
  { id := 0, elo := 0, points := 0, past_opponents := [], color_balance_counter := 0,
    past_results := [], had_regular_bye := false, has_bye_this_round := false,
    is_present := true }

/-- Convenience constructor: a freshly registered, present player with empty
history, as produced by `Player.__init__`. -/
def basePlayer (id : ℕ) (elo : ℤ) : Player :=
  { id := id, elo := elo, points := 0, past_opponents := [], color_balance_counter := 0,
    past_results := [], had_regular_bye := false, has_bye_this_round := false,
    is_present := true }

/-- Embeds a `Match` object; the two players are referenced by id into the
player store (Python holds object references). -/
structure Match where
  match_id : ℕ
  round_number : ℕ
  player_white : ℕ
  player_black : ℕ
  result : String
  is_bye_match : Bool
  is_half_bye_match : Bool
deriving DecidableEq

/- ---------- Python list.sort (stable, ascending by key) ---------- -/

/-- Insert `x` after every already-placed element `y` with `le y x`; together
with `stableSort` this implements a stable ascending insertion sort, the
behaviour of Python's `list.sort`. -/
def insertSorted {α : Type} (le : α → α → Bool) (x : α) : List α → List α
  | [] => [x]
  | y :: ys => if le y x then y :: insertSorted le x ys else x :: y :: ys

/-- Stable sort with boolean `le`; equal elements keep their input order,
exactly like Python's `list.sort` / `sorted`. -/
def stableSort {α : Type} (le : α → α → Bool) (l : List α) : List α :=
  l.foldl (fun acc x => insertSorted le x acc) []

/-- The sort key `lambda p: (p.points, p.elo)` of bye selection, as a boolean
lexicographic less-or-equal. -/
def byPointsEloLe (p q : Player) : Bool :=
  decide (p.points < q.points ∨ (p.points = q.points ∧ p.elo ≤ q.elo))

/- ---------- Player._name_surname_encoder ---------- -/

/-- Python `str.strip()`. -/
def pyStrip (s : String) : String := s.trim

/-- Python `str.split()` with no argument: split on whitespace, dropping empty
pieces. -/
def pySplit (s : String) : List String :=
  (s.split Char.isWhitespace).filter (fun w => w ≠ "")

/-- `word[0] + ". "`: abbreviate a (non-empty) name word to its initial. -/
def abbrevInit (w : String) : String := String.mk (w.toList.take 1) ++ ". "

/-- Embeds `Player._name_surname_encoder`; the argument is `Option String`
because the Python code also tests `name_surname is None`. -/
def name_surname_encoder (name_surname : Option String) : String :=
  match name_surname with
  | none => "BYE_OPPONENT"
  | some s =>
    if pyStrip s = "" then "BYE_OPPONENT"
    else if s.length < 20 then s
    else
      let ws := pySplit s
      let joined := String.join (ws.dropLast.map abbrevInit ++ ws.drop (ws.length - 1))
      if joined.length < 20 then joined
      else String.mk (joined.toList.take 17) ++ "..."

/-- The name-handling part of `Player.__init__`: empty (after strip) names are
rejected, otherwise the stripped name is passed through the encoder and
stored as `name_surname`. -/
def player_init_name (name_surname : String) : Except String String :=
  if pyStrip name_surname = "" then .error "Player name cannot be empty."
  else .ok (name_surname_encoder (some (pyStrip name_surname)))

/- ---------- PairingEngine constants and badness matrix ---------- -/

def REMATCH_PENALTY : ℚ := 1000

def ELO_DIFF_DIVISOR : ℚ := 500

def MATCH_BADNESS_LIMIT : ℚ := 10

def MATCH_ACCEPTABLE_BADNESS_LIMIT : ℚ := 3

/-- The badness assigned to an ordered pair in
`PairingEngine._calculate_badness_matrix`: rematch penalty, squared points
difference, and ELO difference divided by 500. -/
def calc_badness (p1 p2 : Player) : ℚ :=
  (if p2.id ∈ p1.past_opponents then REMATCH_PENALTY else 0)
  + (p1.points - p2.points) ^ 2
  + |(p1.elo : ℚ) - (p2.elo : ℚ)| / ELO_DIFF_DIVISOR

/-- `badness_matrix.loc[r, c]` for the matrix built by
`_calculate_badness_matrix` over `ps`: the computed value on the strict upper
triangle (row position before column position in the list), `none` (that is,
`float("inf")`) everywhere else. -/
def badness_matrix_loc (ps : List Player) (r c : ℕ) : Option ℚ :=
  match ps.findIdx? (fun p => p.id == r), ps.findIdx? (fun p => p.id == c) with
  | some i, some j =>
      if i < j then
        match ps.get? i, ps.get? j with
        | some a, some b => some (calc_badness a b)
        | _, _ => none
      else none
  | _, _ => none

/-- A complete pairing attempt together with its total badness. -/
abbrev PairingResult := List (Player × Player) × ℚ

/-- The partner loop of `_find_best_pairing_recursive`: `first` is the fixed
first remaining player, `seen` the candidates already tried (in order), and the
third list the candidates still to try; `bound` is
`current_best_total_badness` and `best` the best complete pairing found so far
(with its `min_overall_badness`). -/
def pairLoop (mx : ℕ → ℕ → Option ℚ) (rec : List Player → ℚ → Option PairingResult)
    (first : Player) :
    List Player → List Player → ℚ → Option PairingResult → Option PairingResult
  | _, [], _, best => best
  | seen, c :: cs, bound, best =>
      match mx first.id c.id with
      | none => pairLoop mx rec first (seen ++ [c]) cs bound best
      | some pb =>
        if bound ≤ pb ∨ MATCH_BADNESS_LIMIT < pb then
          pairLoop mx rec first (seen ++ [c]) cs bound best
        else
          match rec (seen ++ cs) (bound - pb) with
          | none => pairLoop mx rec first (seen ++ [c]) cs bound best
          | some (rp, rb) =>
            let tot := pb + rb
            let better : Bool :=
              match best with
              | none => true
              | some (_, m) => decide (tot < m)
            if better then
              if tot < MATCH_ACCEPTABLE_BADNESS_LIMIT then some ((first, c) :: rp, tot)
              else pairLoop mx rec first (seen ++ [c]) cs tot (some ((first, c) :: rp, tot))
            else pairLoop mx rec first (seen ++ [c]) cs bound best

/-- `_find_best_pairing_recursive`, with explicit fuel (the Python recursion
depth is bounded by half the list length, so fuel `length + 1` at the entry
point is never exhausted). `none` is Python's `None`. -/
def findRecFuel (mx : ℕ → ℕ → Option ℚ) : ℕ → List Player → ℚ → Option PairingResult
  | 0, _, _ => none
  | _ + 1, [], _ => some ([], 0)
  | _ + 1, [p1, p2], bound =>
      match mx p1.id p2.id with
      | none => none
      | some b =>
        if bound ≤ b ∨ MATCH_BADNESS_LIMIT < b then none else some ([(p1, p2)], b)
  | n + 1, first :: rest, bound =>
      pairLoop mx (findRecFuel mx n) first [] rest bound none

/-- `PairingEngine._find_best_pairing_recursive` proper. -/
def find_best_pairing_recursive (mx : ℕ → ℕ → Option ℚ) (l : List Player) (bound : ℚ) :
    Option PairingResult :=
  findRecFuel mx (l.length + 1) l bound

/-- `PairingEngine.find_optimal_pairing`: raises on an odd-sized list, builds
the badness matrix, runs the bounded search with budget `4 * len`, and keeps
the result only when its total badness stays within that budget. -/
def find_optimal_pairing (players_to_pair : List Player) :
    Except String (Option PairingResult) :=
  if players_to_pair.isEmpty then .ok (some ([], 0))
  else if players_to_pair.length % 2 ≠ 0 then
    .error "Player list for optimal pairing must be even after bye assignment."
  else
    match find_best_pairing_recursive (badness_matrix_loc players_to_pair)
        players_to_pair ((players_to_pair.length : ℚ) * 4) with
    | some (pr, t) =>
        if t ≤ (players_to_pair.length : ℚ) * 4 then .ok (some (pr, t)) else .ok none
    | none => .ok none

/-- The list of players occurring in a pairing, two per pair. -/
def pairing_players (pr : List (Player × Player)) : List Player :=
  pr.flatMap (fun q => [q.1, q.2])

/-- Soundness invariant of the recursive search: the returned pairs use every
remaining player exactly once, the returned total is the sum of the matrix
values of the returned pairs, and every returned pair has a finite matrix
value within `MATCH_BADNESS_LIMIT`. -/
def PairingInv (mx : ℕ → ℕ → Option ℚ) (l : List Player) (res : PairingResult) : Prop :=
  (pairing_players res.1).Perm l ∧
  res.2 = (res.1.map (fun q => (mx q.1.id q.2.id).getD 0)).sum ∧
  ∀ q ∈ res.1, ∃ b, mx q.1.id q.2.id = some b ∧ b ≤ MATCH_BADNESS_LIMIT

/- ---------- PairingEngine.assign_colors_to_pair ---------- -/

/-- `assign_colors_to_pair` (identical in `PairingEngine` and
`DutchPairingEngine`): lower colour-balance counter gets white, then fewer
points, then lower-or-equal ELO. -/
def assign_colors_to_pair (p1 p2 : Player) : Player × Player :=
  if p1.color_balance_counter < p2.color_balance_counter then (p1, p2)
  else if p2.color_balance_counter < p1.color_balance_counter then (p2, p1)
  else if p1.points < p2.points then (p1, p2)
  else if p2.points < p1.points then (p2, p1)
  else if p1.elo ≤ p2.elo then (p1, p2)
  else (p2, p1)

/- ---------- MatchManager: bye allocation ---------- -/

/-- `MatchManager.get_eligible_bye_player`; `pick` stands for `random.choice`
over the players tied at the lowest score. -/
def get_eligible_bye_player (players_pool : List Player) (pick : List Player → Player) :
    Option Player :=
  match stableSort byPointsEloLe (players_pool.filter (fun p => !p.had_regular_bye)) with
  | [] => none
  | h :: t => some (pick ((h :: t).filter (fun p => decide (p.points = h.points))))

/-- `MatchManager.handle_bye_assignment`: absentees are dropped from the pool
(their half-bye matches touch only players not returned here); if the present
pool is odd, a regular bye (1.0 point) goes to an eligible player chosen by
`pick`, falling back to a half-bye (0.5 point) for the head of the
points/ELO-sorted pool. Returns the (updated) bye player and the remaining
pool. -/
def handle_bye_assignment (players_pool : List Player) (pick : List Player → Player) :
    Option Player × List Player :=
  let players_for_pairing := players_pool.filter (fun p => p.is_present)
  if players_for_pairing.length % 2 = 0 then (none, players_for_pairing)
  else
    match get_eligible_bye_player players_for_pairing pick with
    | some bp =>
        let bp' := { bp with
          points := bp.points + 1
          had_regular_bye := true
          has_bye_this_round := true
          past_opponents := bp.past_opponents ++ [0] }
        (some bp', players_for_pairing.erase bp)
    | none =>
        match stableSort byPointsEloLe players_for_pairing with
        | [] => (none, [])
        | h :: t =>
            let bp' := { h with
              points := h.points + 1/2
              has_bye_this_round := true
              past_opponents := h.past_opponents ++ [0] }
            (some bp', t)

/-- The parity check `Tournament.pair_round` performs on the pool returned by
`handle_bye_assignment`: an odd pool raises `RuntimeError`. -/
def pair_round_parity_guard (players_for_pairing : List Player) : Except String Unit :=
  if players_for_pairing.length % 2 ≠ 0 then
    .error "Internal error: Odd number of players remaining after bye assignment for pairing."
  else .ok ()

/-- `random.choice` outcome taking the first element of the tied list (a
possible draw). -/
def pick_first (l : List Player) : Player := l.headD dummyPlayer

/-- `random.choice` outcome taking the last element of the tied list (a
possible draw). -/
def pick_last (l : List Player) : Player := l.getLastD dummyPlayer

/- ---------- Match.set_result and ResultTracker ---------- -/

def validResults : List String := ["1-0", "0-1", "0.5-0.5", "bye", "half bye"]

/-- `Match.set_result`: invalid tokens raise `ValueError`; a bye match ignores
non-bye results; otherwise the result field is (over)written — re-entry over an
already-entered result only prints a warning before overwriting. -/
def set_result (m : Match) (result : String) : Except String Match :=
  if ¬ (result ∈ validResults) then .error "Invalid result format."
  else if m.is_bye_match ∧ ¬ (result = "bye" ∨ result = "half bye") then .ok m
  else .ok { m with result := result }

/-- `ResultTracker.enter_result` over the matches of one round: missing match,
bye match, and `ValueError` from `set_result` leave the list unchanged;
otherwise the found match is updated in place. -/
def enter_result (matches_in_round : List Match) (match_id : ℕ) (result : String) :
    List Match :=
  match matches_in_round.find? (fun m => m.match_id == match_id) with
  | none => matches_in_round
  | some m =>
    if m.is_bye_match then matches_in_round
    else
      match set_result m result with
      | .error _ => matches_in_round
      | .ok m2 => matches_in_round.map (fun x => if x.match_id == match_id then m2 else x)

/- ---------- ResultTracker.update_players_results ---------- -/

/-- Update the player with the given id in the store. -/
def update_one (st : List Player) (pid : ℕ) (f : Player → Player) : List Player :=
  st.map (fun p => if p.id = pid then f p else p)

/-- `Player.add_points` (the `math.fsum` of two exact values). -/
def add_points (p : Player) (n : ℚ) : Player := { p with points := p.points + n }

/-- The per-match body of `ResultTracker.update_players_results`, acting on the
player store referenced by the match. -/
def apply_match_result (st : List Player) (m : Match) : List Player :=
  if m.result = "1-0" then
    let st2 := update_one st m.player_white (fun p =>
      { add_points p 1 with
        past_results := p.past_results ++ ["W"]
        color_balance_counter := p.color_balance_counter + 1 })
    update_one st2 m.player_black (fun p =>
      { p with
        past_results := p.past_results ++ ["L"]
        color_balance_counter := p.color_balance_counter - 1 })
  else if m.result = "0-1" then
    let st2 := update_one st m.player_black (fun p =>
      { add_points p 1 with
        past_results := p.past_results ++ ["W"]
        color_balance_counter := p.color_balance_counter - 1 })
    update_one st2 m.player_white (fun p =>
      { p with
        past_results := p.past_results ++ ["L"]
        color_balance_counter := p.color_balance_counter + 1 })
  else if m.result = "0.5-0.5" then
    let st2 := update_one st m.player_black (fun p =>
      { add_points p (1/2) with
        past_results := p.past_results ++ ["D"]
        color_balance_counter := p.color_balance_counter - 1 })
    update_one st2 m.player_white (fun p =>
      { add_points p (1/2) with
        past_results := p.past_results ++ ["D"]
        color_balance_counter := p.color_balance_counter + 1 })
  else if m.result = "bye" then
    update_one st m.player_white (fun p => { p with past_results := p.past_results ++ ["B"] })
  else if m.result = "half bye" then
    update_one st m.player_white (fun p => { p with past_results := p.past_results ++ ["HB"] })
  else
    let st2 := update_one st m.player_white (fun p =>
      { p with past_results := p.past_results ++ [m.result] })
    update_one st2 m.player_black (fun p =>
      { p with past_results := p.past_results ++ [m.result] })

/-- `ResultTracker.update_players_results`: unconditionally applies every
match's effects, in list order. -/
def update_players_results (st : List Player) (ms : List Match) : List Player :=
  ms.foldl apply_match_result st

/-- `PlayerManager.get_player_by_id` (first player with the id, else `None`). -/
def get_player_by_id (players : List Player) (pid : ℕ) : Option Player :=
  players.find? (fun p => p.id == pid)

/- ---------- PlayerManager.get_final_standings ---------- -/

/-- Python list indexing with possibly negative index (`IndexError` when out of
range). -/
def pyIndex {α : Type} (l : List α) (i : ℤ) : Except String α :=
  let j : ℤ := if i < 0 then i + l.length else i
  if j < 0 then .error "IndexError"
  else
    match l.get? j.toNat with
    | some x => .ok x
    | none => .error "IndexError"

/-- Append a player to its score's group, keeping `defaultdict` insertion
order (new scores at the end, new members at the end of their group). -/
def insert_scoregroup (acc : List (ℚ × List Player)) (p : Player) :
    List (ℚ × List Player) :=
  match acc with
  | [] => [(p.points, [p])]
  | (s, g) :: rest =>
      if s = p.points then (s, g ++ [p]) :: rest
      else (s, g) :: insert_scoregroup rest p

/-- The scoregroup-building loop of `get_final_standings`, including its
`break` at the first player scoring below the cutoff. -/
def build_scoregroups (cutoff : ℚ) :
    List Player → List (ℚ × List Player) → List (ℚ × List Player)
  | [], acc => acc
  | p :: ps, acc =>
      if p.points < cutoff then acc
      else build_scoregroups cutoff ps (insert_scoregroup acc p)

/-- The `opponents_points` list accumulated for one player of a tied score
group: one iteration per entry of `past_results` (index `i` into
`past_opponents`), modelling `IndexError` on a short opponent list and
`AttributeError` on a failed id lookup. -/
def opponents_points (players scoregroup : List Player) (opps : List ℕ) :
    List String → ℕ → Except String (List ℚ)
  | [], _ => .ok []
  | r :: rs, i =>
    if r = "B" ∨ r = "HB" then opponents_points players scoregroup opps rs (i + 1)
    else if r = "L" then
      match opps.get? i with
      | none => .error "IndexError"
      | some oid =>
        match get_player_by_id players oid with
        | none => .error "AttributeError"
        | some o => do
            let rest ← opponents_points players scoregroup opps rs (i + 1)
            .ok (0 :: (o.elo : ℚ) / 10000 :: rest)
    else if r = "W" then
      match opps.get? i with
      | none => .error "IndexError"
      | some oid =>
        match get_player_by_id players oid with
        | none => .error "AttributeError"
        | some o => do
            let rest ← opponents_points players scoregroup opps rs (i + 1)
            .ok ((if o ∈ scoregroup then o.points ^ 2 else o.points)
              :: (o.elo : ℚ) / 10000 :: rest)
    else if r = "D" then
      match opps.get? i with
      | none => .error "IndexError"
      | some oid =>
        match get_player_by_id players oid with
        | none => .error "AttributeError"
        | some o => do
            let rest ← opponents_points players scoregroup opps rs (i + 1)
            .ok (o.points / 2 :: (o.elo : ℚ) / 10000 :: rest)
    else opponents_points players scoregroup opps rs (i + 1)

/-- The tie-break metric `(fsum(opponents_points) * 2) / len(opponents_points)`
of one player, with the `ZeroDivisionError` of an empty contribution list. -/
def average_opponent_metric (players scoregroup : List Player) (p : Player) :
    Except String ℚ := do
  let cs ← opponents_points players scoregroup p.past_opponents p.past_results 0
  if cs.length = 0 then .error "ZeroDivisionError"
  else .ok (cs.sum * 2 / (cs.length : ℚ))

/-- `PlayerManager.get_final_standings`: cutoff at the points of
`players[top]`, scoregroups in insertion order, singleton groups passed
through, larger groups ordered by the average-opponent metric (stable,
descending), and any truncated tail of the original list appended back. -/
def get_final_standings (players : List Player) (top? : Option ℤ) :
    Except String (List Player) := do
  let top : ℤ := (top?.getD (players.length : ℤ)) - 1
  let cutoffPlayer ← pyIndex players top
  let groups := build_scoregroups cutoffPlayer.points players []
  let fs ← groups.foldlM (fun (acc : List Player) (g : ℚ × List Player) =>
    match g.2 with
    | [p] => .ok (acc ++ [p])
    | grp => do
        let pairs ← grp.mapM (fun p => do
          let m ← average_opponent_metric players grp p
          pure (p, m))
        let sorted := stableSort (fun a b : Player × ℚ => decide (b.2 ≤ a.2)) pairs
        .ok (acc ++ sorted.map (fun x => x.1))) []
  .ok (fs ++ players.drop fs.length)

/- ---------- definition modelled from the claim text (C5) ---------- -/

/-- The badness composition exactly as claim C5 states it (and as §4.1 of the
spec lists it, without the optional same-half penalty): a rematch term plus the
rating-difference term only, with no contribution from the players' points. -/
def claimed_two_term_badness (p1 p2 : Player) : ℚ :=
  (if p2.id ∈ p1.past_opponents then REMATCH_PENALTY else 0)
  + |(p1.elo : ℚ) - (p2.elo : ℚ)| / ELO_DIFF_DIVISOR

/- ---------- concrete inputs used by witnesses and counterexamples ---------- -/

/-- The five-competitor pool of the spec's worked scenario (§8 / claim C7):
ratings [2700, 2650, 2600, 2550, 2500], zero history, all present. -/
def scenarioPool : List Player :=
  [basePlayer 1 2700, basePlayer 2 2650, basePlayer 3 2600,
   basePlayer 4 2550, basePlayer 5 2500]

/-- Two-player pool with distinct ratings and no history. -/
def twoPool : List Player := [basePlayer 1 1500, basePlayer 2 1600]

/-- A pair differing only in points (used against claim C5's two-term
formula). -/
def c5Pool : List Player :=
  [{ basePlayer 1 1500 with points := 1 }, basePlayer 2 1500]

/-- Two players tied on colour counter, points and ELO (claim C4). -/
def tiedA : Player := basePlayer 1 1500

/-- Second player of the tied pair of claim C4. -/
def tiedB : Player := basePlayer 2 1500

/-- A non-bye match whose result has already been entered as "1-0" (claim C2). -/
def enteredMatch : Match :=
  { match_id := 1, round_number := 1, player_white := 1, player_black := 2,
    result := "1-0", is_bye_match := false, is_half_bye_match := false }

/-- Two players tied at 1.0 point whose only recorded round is a bye — the
tied score block with no real opponents of claim C3. -/
def allByePool : List Player :=
  [{ basePlayer 1 1500 with points := 1, past_opponents := [0], past_results := ["B"] },
   { basePlayer 2 1600 with points := 1, past_opponents := [0], past_results := ["B"] }]

/-- Store of two players for the double-application scenario of claim C10. -/
def c10Store : List Player := [basePlayer 1 1500, basePlayer 2 1600]

/-- The decided match between them, result "1-0". -/
def c10Match : Match :=
  { match_id := 1, round_number := 1, player_white := 1, player_black := 2,
    result := "1-0", is_bye_match := false, is_half_bye_match := false }

/- ════════════════════════ theorems ════════════════════════ -/

set_option maxRecDepth 1500

deriving instance DecidableEq for Except

/- ---------- stableSort helper lemmas ---------- -/

theorem length_insertSorted {α : Type} (le : α → α → Bool) (x : α) :
    ∀ l : List α, (insertSorted le x l).length = l.length + 1 := by
  intro l
  induction l with
  | nil => rfl
  | cons y ys ih =>
      unfold insertSorted
      by_cases h : le y x = true
      · simp [h, ih]
      · simp [h]

theorem length_stableSort {α : Type} (le : α → α → Bool) (l : List α) :
    (stableSort le l).length = l.length := by
  suffices h : ∀ (l acc : List α),
      (l.foldl (fun acc x => insertSorted le x acc) acc).length = acc.length + l.length by
    simpa [stableSort] using h l []
  intro l
  induction l with
  | nil => intro acc; simp
  | cons y ys ih =>
      intro acc
      simp only [List.foldl_cons]
      rw [ih, length_insertSorted, List.length_cons]
      omega

theorem mem_insertSorted {α : Type} (le : α → α → Bool) (x a : α) :
    ∀ l : List α, a ∈ insertSorted le x l ↔ a = x ∨ a ∈ l := by
  intro l
  induction l with
  | nil => simp [insertSorted]
  | cons y ys ih =>
      unfold insertSorted
      by_cases h : le y x = true
      · simp [h, ih]
        try tauto
      · simp [h]
        try tauto

theorem mem_stableSort {α : Type} (le : α → α → Bool) (l : List α) (a : α) :
    a ∈ stableSort le l ↔ a ∈ l := by
  suffices h : ∀ (l acc : List α),
      a ∈ l.foldl (fun acc x => insertSorted le x acc) acc ↔ a ∈ acc ∨ a ∈ l by
    simpa [stableSort] using h l []
  intro l
  induction l with
  | nil => intro acc; simp
  | cons y ys ih =>
      intro acc
      simp only [List.foldl_cons]
      rw [ih, mem_insertSorted]
      simp
      tauto

/- ---------- C2: re-entering a result over an already-entered one ---------- -/

/-- C2, counterexample: for the non-bye match `enteredMatch` whose result is
already "1-0", entering the different result "0-1" is not rejected: the stored
result is overwritten, so the original result is not preserved. -/
theorem claim_C2_counterexample :
    set_result enteredMatch "0-1" = .ok { enteredMatch with result := "0-1" } ∧
    ({ enteredMatch with result := "0-1" } : Match) ≠ enteredMatch := by
  constructor
  · rfl
  · intro h
    exact absurd (congrArg Match.result h) (by decide)

/-- C2, amended: entering any valid result for a non-bye match — also a
different one over an already-entered result — is accepted: `set_result`
overwrites the stored result with the new value (after a warning print), and
`enter_result` persists exactly that overwrite into the round's match list. -/
theorem claim_C2_amended (m : Match) (r : String)
    (hbye : m.is_bye_match = false) (hr : r ∈ validResults)
    (hprev : m.result ≠ " - ") (hdiff : r ≠ m.result) :
    set_result m r = .ok { m with result := r } ∧
    ∀ ms : List Match, ms.find? (fun x => x.match_id == m.match_id) = some m →
      enter_result ms m.match_id r =
        ms.map (fun x => if x.match_id == m.match_id then { m with result := r } else x) := by
  have hset : set_result m r = .ok { m with result := r } := by
    unfold set_result
    simp [hr, hbye]
  refine ⟨hset, ?_⟩
  intro ms hfind
  unfold enter_result
  rw [hfind]
  simp [hbye, hset]

/-- C2, witness for the amended theorem at a concrete match and result. -/
theorem claim_C2_amended_witness :
    (enteredMatch.is_bye_match = false ∧ ("0-1" : String) ∈ validResults ∧
      enteredMatch.result ≠ " - " ∧ ("0-1" : String) ≠ enteredMatch.result) ∧
    set_result enteredMatch "0-1" = .ok { enteredMatch with result := "0-1" } ∧
    enter_result [enteredMatch] enteredMatch.match_id "0-1" =
      [enteredMatch].map (fun x => if x.match_id == enteredMatch.match_id then
        { enteredMatch with result := "0-1" } else x) := by
  refine ⟨by decide, ?_, ?_⟩
  · exact (claim_C2_amended enteredMatch "0-1" (by decide) (by decide) (by decide) (by decide)).1
  · exact (claim_C2_amended enteredMatch "0-1" (by decide) (by decide) (by decide)
      (by decide)).2 [enteredMatch] (by decide)

/- ---------- C3: all-bye player in a tied score block ---------- -/

/-- C3: evaluating `get_final_standings` on `allByePool` — a tied score block
of two players whose only recorded results are byes — does not return
normally: the tie-break metric divides by the empty contribution list's
length, raising `ZeroDivisionError`. -/
theorem claim_C3_zero_division :
    get_final_standings allByePool none = .error "ZeroDivisionError" := by
  rfl

/- ---------- C4: colour assignment anti-symmetry ---------- -/

/-- C4, counterexample: two distinct players tied on colour-balance counter,
points and ELO; `assign_colors_to_pair` returns its arguments in argument
order on both call orders, so the two calls disagree. -/
theorem claim_C4_counterexample :
    assign_colors_to_pair tiedA tiedB = (tiedA, tiedB) ∧
    assign_colors_to_pair tiedB tiedA = (tiedB, tiedA) ∧
    assign_colors_to_pair tiedA tiedB ≠ assign_colors_to_pair tiedB tiedA := by
  refine ⟨rfl, rfl, ?_⟩
  intro h
  have := congrArg (fun q : Player × Player => q.1.id) h
  simp [assign_colors_to_pair, tiedA, tiedB, basePlayer] at this

/-- C4, amended: `assign_colors_to_pair` is anti-symmetric whenever the two
players differ on at least one of the three precedence keys (colour-balance
counter, points, ELO); on a complete tie of all three keys it returns its
arguments in argument order, so the two call orders disagree there. -/
theorem claim_C4_amended (a b : Player)
    (h : ¬(a.color_balance_counter = b.color_balance_counter ∧
           a.points = b.points ∧ a.elo = b.elo)) :
    assign_colors_to_pair a b = assign_colors_to_pair b a := by
  unfold assign_colors_to_pair
  rcases lt_trichotomy a.color_balance_counter b.color_balance_counter with hc | hc | hc
  · simp [hc, not_lt.mpr hc.le]
  · rcases lt_trichotomy a.points b.points with hp | hp | hp
    · simp [hc, hp, not_lt.mpr hp.le]
    · rcases lt_trichotomy a.elo b.elo with he | he | he
      · simp [hc, hp, he.le, not_le.mpr he]
      · exact absurd ⟨hc, hp, he⟩ h
      · simp [hc, hp, he.le, not_le.mpr he]
    · simp [hc, hp, not_lt.mpr hp.le]
  · simp [hc, not_lt.mpr hc.le]

/-- C4, witness for the amended theorem: two players differing in ELO only. -/
theorem claim_C4_amended_witness :
    (¬((basePlayer 1 1400).color_balance_counter = (basePlayer 2 1500).color_balance_counter ∧
       (basePlayer 1 1400).points = (basePlayer 2 1500).points ∧
       (basePlayer 1 1400).elo = (basePlayer 2 1500).elo)) ∧
    assign_colors_to_pair (basePlayer 1 1400) (basePlayer 2 1500) =
      assign_colors_to_pair (basePlayer 2 1500) (basePlayer 1 1400) := by
  refine ⟨by decide, claim_C4_amended _ _ (by decide)⟩

/- ---------- findIdx? helper lemmas ---------- -/

theorem findIdx?_some_get {α : Type} (p : α → Bool) :
    ∀ (l : List α) (i : ℕ), l.findIdx? p = some i →
      ∃ x, l.get? i = some x ∧ p x = true := by
  intro l
  induction l with
  | nil => intro i h; simp [List.findIdx?] at h
  | cons y ys ih =>
      intro i h
      rw [List.findIdx?_cons] at h
      by_cases hp : p y = true
      · simp [hp] at h
        subst h
        exact ⟨y, rfl, hp⟩
      · simp [hp, List.findIdx?_succ] at h
        obtain ⟨j, hj, hji⟩ := h
        obtain ⟨x, hx, hpx⟩ := ih j hj
        exact ⟨x, by simpa [← hji] using hx, hpx⟩

theorem findIdx?_of_get_of_nodup (l : List Player)
    (hnd : (l.map Player.id).Nodup) :
    ∀ (i : ℕ) (a : Player), l.get? i = some a →
      l.findIdx? (fun p => p.id == a.id) = some i := by
  induction l with
  | nil => intro i a h; simp at h
  | cons y ys ih =>
      intro i a h
      rw [List.findIdx?_cons]
      match i with
      | 0 =>
          simp at h
          subst h
          simp
      | j + 1 =>
          rw [List.get?_cons_succ] at h
          have hmem : a ∈ ys := List.get?_mem h
          rw [List.map_cons, List.nodup_cons] at hnd
          have hne : y.id ≠ a.id := by
            intro hcontra
            exact absurd (List.mem_map_of_mem Player.id hmem) (by rw [← hcontra]; exact hnd.1)
          have hfalse : (y.id == a.id) = false := by simpa using hne
          rw [hfalse]
          simp only [Bool.false_eq_true, if_false, List.findIdx?_succ]
          rw [ih hnd.2 j a h]
          rfl

/- ---------- C5: badness composition ---------- -/

/-- C5, counterexample: for a pair differing only in points (1.0 vs 0.0, equal
ratings, no history), the badness matrix records 1.0 — the squared points
difference — while the two-term formula of the claim gives 0. -/
theorem claim_C5_counterexample :
    badness_matrix_loc c5Pool 1 2 = some 1 ∧
    claimed_two_term_badness ({ basePlayer 1 1500 with points := 1 }) (basePlayer 2 1500) = 0 ∧
    badness_matrix_loc c5Pool 1 2 ≠
      some (claimed_two_term_badness ({ basePlayer 1 1500 with points := 1 })
        (basePlayer 2 1500)) := by
  refine ⟨by with_unfolding_all rfl, by with_unfolding_all rfl, ?_⟩
  intro h
  rw [show claimed_two_term_badness ({ basePlayer 1 1500 with points := 1 })
      (basePlayer 2 1500) = 0 from by with_unfolding_all rfl] at h
  rw [show badness_matrix_loc c5Pool 1 2 = some 1 from by with_unfolding_all rfl] at h
  simp at h

/-- C5, amended: the badness-matrix entry of an (ordered) pair of distinct-id
players is the sum of exactly three terms — the rematch penalty when the
second player's id is in the first's opponent history, the squared points
difference, and the absolute rating difference divided by the fixed divisor
500. -/
theorem claim_C5_amended (ps : List Player) (i j : ℕ) (a b : Player)
    (hnd : (ps.map Player.id).Nodup) (hij : i < j)
    (ha : ps.get? i = some a) (hb : ps.get? j = some b) :
    badness_matrix_loc ps a.id b.id =
      some ((if b.id ∈ a.past_opponents then REMATCH_PENALTY else 0)
        + (a.points - b.points) ^ 2
        + |(a.elo : ℚ) - (b.elo : ℚ)| / ELO_DIFF_DIVISOR) := by
  unfold badness_matrix_loc
  rw [findIdx?_of_get_of_nodup ps hnd i a ha, findIdx?_of_get_of_nodup ps hnd j b hb]
  simp only [if_pos hij, ha, hb]
  rfl

/-- C5, witness for the amended theorem at the two-player pool `c5Pool`. -/
theorem claim_C5_amended_witness :
    ((c5Pool.map Player.id).Nodup ∧ (0 : ℕ) < 1 ∧
      c5Pool.get? 0 = some ({ basePlayer 1 1500 with points := 1 }) ∧
      c5Pool.get? 1 = some (basePlayer 2 1500)) ∧
    badness_matrix_loc c5Pool ({ basePlayer 1 1500 with points := 1 } : Player).id
        (basePlayer 2 1500).id =
      some ((if (basePlayer 2 1500).id ∈
              ({ basePlayer 1 1500 with points := 1 } : Player).past_opponents
            then REMATCH_PENALTY else 0)
        + (({ basePlayer 1 1500 with points := 1 } : Player).points
            - (basePlayer 2 1500).points) ^ 2
        + |((({ basePlayer 1 1500 with points := 1 } : Player).elo : ℚ))
            - ((basePlayer 2 1500).elo : ℚ)| / ELO_DIFF_DIVISOR) := by
  refine ⟨⟨by decide, by decide, by decide, by decide⟩, ?_⟩
  exact claim_C5_amended c5Pool 0 1 _ _ (by decide) (by decide) (by decide) (by decide)

/- ---------- C9: name encoder length bound ---------- -/

/-- C9: for every input (None, empty, whitespace-only, short or long strings),
the name encoder returns a string of at most 20 characters, and consequently
the `name_surname` stored by `Player.__init__` never exceeds 20 characters. -/
theorem claim_C9_name_length :
    (∀ s : Option String, (name_surname_encoder s).length ≤ 20) ∧
    (∀ (n r : String), player_init_name n = .ok r → r.length ≤ 20) := by
  have henc : ∀ s : Option String, (name_surname_encoder s).length ≤ 20 := by
    intro s
    match s with
    | none => decide
    | some s =>
        unfold name_surname_encoder
        by_cases h1 : pyStrip s = ""
        · simp [h1]
          decide
        · by_cases h2 : s.length < 20
          · simp [h1, h2]
            omega
          · simp only [h1, h2, if_false, if_neg]
            set joined := String.join ((pySplit s).dropLast.map abbrevInit ++
              (pySplit s).drop ((pySplit s).length - 1)) with hj
            by_cases h3 : joined.length < 20
            · simp [h3]
              omega
            · simp only [h3, if_false]
              rw [String.length_append]
              have htake : (String.mk (joined.toList.take 17)).length ≤ 17 := by
                show (joined.toList.take 17).length ≤ 17
                rw [List.length_take]
                omega
              have hdots : ("..." : String).length = 3 := rfl
              omega
  refine ⟨henc, ?_⟩
  intro n r h
  unfold player_init_name at h
  by_cases h1 : pyStrip n = ""
  · simp [h1] at h
  · simp [h1] at h
    rw [← h]
    exact henc (some (pyStrip n))

/-- C9, witness for the `Player.__init__` part at a concrete long name. -/
theorem claim_C9_witness :
    player_init_name "  Alexandra Konstantinopolskaya Dimitriou  " =
      .ok "A. K. Dimitriou" ∧
    ("A. K. Dimitriou" : String).length ≤ 20 := by
  constructor
  · with_unfolding_all rfl
  · exact claim_C9_name_length.2 "  Alexandra Konstantinopolskaya Dimitriou  "
      "A. K. Dimitriou" (by with_unfolding_all rfl)

/- ---------- player-store lookup/update lemmas ---------- -/

theorem find?_id_update (st : List Player) (pid qid : ℕ) (f : Player → Player)
    (hf : ∀ p, (f p).id = p.id) :
    get_player_by_id (update_one st pid f) qid =
      (get_player_by_id st qid).map (fun p => if p.id = pid then f p else p) := by
  induction st with
  | nil => rfl
  | cons p t ih =>
      unfold update_one get_player_by_id at *
      simp only [List.map_cons, List.find?_cons]
      have hid : (if p.id = pid then f p else p).id = p.id := by
        split
        · exact hf p
        · rfl
      by_cases hq : (p.id == qid) = true
      · rw [show ((if p.id = pid then f p else p).id == qid) = true from by rw [hid]; exact hq]
        rw [hq]
        rfl
      · rw [show ((if p.id = pid then f p else p).id == qid) = false from by
          rw [hid]; simpa using hq]
        rw [show (p.id == qid) = false from by simpa using hq]
        exact ih

theorem found_id_eq (st : List Player) (pid : ℕ) (p : Player)
    (h : get_player_by_id st pid = some p) : p.id = pid := by
  have := List.find?_some h
  simpa using this

/- ---------- C10: unguarded double application of results ---------- -/

/-- One application of `update_players_results` to a single "1-0" match:
the white player gains exactly one point, one "W" history token and +1 on the
colour counter; the black player gains one "L" token and −1 on the counter. -/
theorem white_win_step (st : List Player) (m : Match) (w b : Player)
    (hres : m.result = "1-0") (hne : m.player_white ≠ m.player_black)
    (hw : get_player_by_id st m.player_white = some w)
    (hb : get_player_by_id st m.player_black = some b) :
    get_player_by_id (apply_match_result st m) m.player_white =
      some { w with
        points := w.points + 1
        past_results := w.past_results ++ ["W"]
        color_balance_counter := w.color_balance_counter + 1 } ∧
    get_player_by_id (apply_match_result st m) m.player_black =
      some { b with
        past_results := b.past_results ++ ["L"]
        color_balance_counter := b.color_balance_counter - 1 } := by
  have hwid : w.id = m.player_white := found_id_eq st m.player_white w hw
  have hbid : b.id = m.player_black := found_id_eq st m.player_black b hb
  unfold apply_match_result
  rw [hres]
  simp only [reduceIte]
  constructor
  · rw [find?_id_update]
    · rw [find?_id_update]
      · rw [hw]
        simp only [Option.map_some']
        rw [if_pos hwid]
        rw [if_neg (show ¬({ add_points w 1 with
            past_results := w.past_results ++ ["W"]
            color_balance_counter := w.color_balance_counter + 1 } : Player).id = m.player_black
          from by
            show ¬w.id = m.player_black
            rw [hwid]
            exact hne)]
        rfl
      · intro p
        rfl
    · intro p
      rfl
  · rw [find?_id_update]
    · rw [find?_id_update]
      · rw [hb]
        simp only [Option.map_some']
        rw [if_neg (show ¬b.id = m.player_white from by
          rw [hbid]; exact fun hcontra => hne hcontra.symm)]
        rw [if_pos hbid]
      · intro p
        rfl
    · intro p
      rfl

/-- C10: `update_players_results` applies the per-result effects of a "1-0"
match unconditionally — one point, one history token and a ±1 counter shift
per player — and, having no guard against reprocessing, a second invocation on
the same match applies all of those effects a second time. -/
theorem claim_C10_unconditional_updates (st : List Player) (m : Match) (w b : Player)
    (hres : m.result = "1-0") (hne : m.player_white ≠ m.player_black)
    (hw : get_player_by_id st m.player_white = some w)
    (hb : get_player_by_id st m.player_black = some b) :
    get_player_by_id (update_players_results st [m]) m.player_white =
      some { w with
        points := w.points + 1
        past_results := w.past_results ++ ["W"]
        color_balance_counter := w.color_balance_counter + 1 } ∧
    get_player_by_id (update_players_results st [m]) m.player_black =
      some { b with
        past_results := b.past_results ++ ["L"]
        color_balance_counter := b.color_balance_counter - 1 } ∧
    get_player_by_id (update_players_results (update_players_results st [m]) [m])
        m.player_white =
      some { w with
        points := w.points + 1 + 1
        past_results := (w.past_results ++ ["W"]) ++ ["W"]
        color_balance_counter := w.color_balance_counter + 1 + 1 } ∧
    get_player_by_id (update_players_results (update_players_results st [m]) [m])
        m.player_black =
      some { b with
        past_results := (b.past_results ++ ["L"]) ++ ["L"]
        color_balance_counter := b.color_balance_counter - 1 - 1 } := by
  have hone : ∀ s : List Player, update_players_results s [m] = apply_match_result s m := by
    intro s
    rfl
  have h1 := white_win_step st m w b hres hne hw hb
  have h2 := white_win_step (apply_match_result st m) m _ _ hres hne h1.1 h1.2
  rw [hone, hone]
  exact ⟨h1.1, h1.2, h2.1, h2.2⟩

/-- C10, witness at a concrete two-player store and a concrete "1-0" match. -/
theorem claim_C10_witness :
    (c10Match.result = "1-0" ∧ c10Match.player_white ≠ c10Match.player_black ∧
      get_player_by_id c10Store c10Match.player_white = some (basePlayer 1 1500) ∧
      get_player_by_id c10Store c10Match.player_black = some (basePlayer 2 1600)) ∧
    get_player_by_id (update_players_results (update_players_results c10Store [c10Match])
        [c10Match]) c10Match.player_white =
      some { basePlayer 1 1500 with
        points := (basePlayer 1 1500).points + 1 + 1
        past_results := ((basePlayer 1 1500).past_results ++ ["W"]) ++ ["W"]
        color_balance_counter := (basePlayer 1 1500).color_balance_counter + 1 + 1 } := by
  refine ⟨⟨rfl, by decide, rfl, rfl⟩, ?_⟩
  exact (claim_C10_unconditional_updates c10Store c10Match (basePlayer 1 1500)
    (basePlayer 2 1600) rfl (by decide) rfl rfl).2.2.1

/- ---------- C6: the remaining pool is always even ---------- -/

theorem get_eligible_mem (pool : List Player) (pick : List Player → Player)
    (hpick : ∀ l : List Player, l ≠ [] → pick l ∈ l) (bp : Player)
    (h : get_eligible_bye_player pool pick = some bp) : bp ∈ pool := by
  unfold get_eligible_bye_player at h
  cases hs : stableSort byPointsEloLe (pool.filter (fun p => !p.had_regular_bye)) with
  | nil => rw [hs] at h; exact absurd h (by simp)
  | cons hd t =>
      rw [hs] at h
      simp only [Option.some.injEq] at h
      have htne : (hd :: t).filter (fun p => decide (p.points = hd.points)) ≠ [] := by
        intro hc
        have hhd : hd ∈ (hd :: t).filter (fun p => decide (p.points = hd.points)) := by
          simp [List.mem_filter]
        rw [hc] at hhd
        exact absurd hhd (by simp)
      have hmem : bp ∈ (hd :: t).filter (fun p => decide (p.points = hd.points)) := by
        rw [← h]; exact hpick _ htne
      have hmem2 : bp ∈ hd :: t := List.mem_of_mem_filter hmem
      rw [← hs] at hmem2
      have hmem3 := (mem_stableSort byPointsEloLe _ bp).mp hmem2
      exact List.mem_of_mem_filter hmem3

/-- C6: the pool that `handle_bye_assignment` returns for pairing always has
even size (for any admissible random draw), and `Tournament.pair_round`
treats an odd pool after bye assignment as a fatal internal error
(`RuntimeError`), not a silently accepted state. -/
theorem claim_C6_even_after_bye :
    (∀ (pool : List Player) (pick : List Player → Player),
        (∀ l : List Player, l ≠ [] → pick l ∈ l) →
        (handle_bye_assignment pool pick).2.length % 2 = 0) ∧
    (∀ l : List Player, l.length % 2 = 1 →
        pair_round_parity_guard l =
          .error "Internal error: Odd number of players remaining after bye assignment for pairing.") := by
  constructor
  · intro pool pick hpick
    unfold handle_bye_assignment
    by_cases hev : (pool.filter (fun p => p.is_present)).length % 2 = 0
    · rw [if_pos hev]
      exact hev
    · rw [if_neg hev]
      cases hge : get_eligible_bye_player (pool.filter (fun p => p.is_present)) pick with
      | some bp =>
          simp only []
          have hbp : bp ∈ pool.filter (fun p => p.is_present) :=
            get_eligible_mem _ pick hpick bp hge
          have hlen := List.length_erase_of_mem hbp
          simp only [hlen]
          omega
      | none =>
          cases hs : stableSort byPointsEloLe (pool.filter (fun p => p.is_present)) with
          | nil =>
              exfalso
              have := length_stableSort byPointsEloLe (pool.filter (fun p => p.is_present))
              rw [hs] at this
              simp at this
              omega
          | cons hd t =>
              simp only []
              have := length_stableSort byPointsEloLe (pool.filter (fun p => p.is_present))
              rw [hs] at this
              simp only [List.length_cons] at this
              omega
  · intro l hl
    unfold pair_round_parity_guard
    rw [if_pos (by omega : l.length % 2 ≠ 0)]

theorem pick_first_mem : ∀ l : List Player, l ≠ [] → pick_first l ∈ l := by
  intro l hl
  cases l with
  | nil => exact absurd rfl hl
  | cons h t => simp [pick_first]

/-- C6, witness: the five-player scenario pool (odd after filtering) leaves an
even pool, and the guard errors on a concrete odd list. -/
theorem claim_C6_witness :
    (handle_bye_assignment scenarioPool pick_first).2.length % 2 = 0 ∧
    pair_round_parity_guard [dummyPlayer] =
      .error "Internal error: Odd number of players remaining after bye assignment for pairing." := by
  exact ⟨claim_C6_even_after_bye.1 scenarioPool pick_first pick_first_mem,
    claim_C6_even_after_bye.2 [dummyPlayer] (by decide)⟩

/- ---------- C7: the worked five-player scenario ---------- -/

/-- C7, counterexample: in the five-player scenario all five competitors are
tied at zero points, so the whole pool is the tied set handed to
`random.choice`; under the admissible draw that picks the last element of that
set, the regular bye goes to the 2700-rated competitor, not to the 2500-rated
one the claim requires. -/
theorem claim_C7_counterexample :
    (handle_bye_assignment scenarioPool pick_last).1.map Player.elo = some 2700 ∧
    (2700 : ℤ) ≠ 2500 := by
  constructor
  · simp +decide [handle_bye_assignment, get_eligible_bye_player, stableSort, insertSorted,
      byPointsEloLe, scenarioPool, basePlayer, pick_last, dummyPlayer, List.erase]
  · decide

theorem getLastD_mem : ∀ (l : List Player) (d : Player), l ≠ [] → l.getLastD d ∈ l := by
  intro l
  induction l with
  | nil => intro d h; exact absurd rfl h
  | cons x t ih =>
      intro d _
      cases t with
      | nil => simp [List.getLastD]
      | cons y u =>
          rw [List.getLastD_cons]
          exact List.mem_cons_of_mem x (ih x (by simp))

theorem pick_last_mem : ∀ l : List Player, l ≠ [] → pick_last l ∈ l :=
  fun l h => getLastD_mem l dummyPlayer h

/-- C7, amended: the regular bye goes to a `random.choice` over all five
competitors (they are all tied at the lowest score, zero); under the draw that
selects the head of the (points, ELO)-sorted tied list — the 2500-rated
competitor — the remaining four are paired (2700↔2650, 2600↔2550) with total
badness 0.2, the minimal rating-difference configuration. -/
theorem claim_C7_amended :
    (handle_bye_assignment scenarioPool pick_first).1.map Player.elo = some 2500 ∧
    (handle_bye_assignment scenarioPool pick_first).2 =
      [basePlayer 1 2700, basePlayer 2 2650, basePlayer 3 2600, basePlayer 4 2550] ∧
    find_optimal_pairing [basePlayer 1 2700, basePlayer 2 2650, basePlayer 3 2600,
        basePlayer 4 2550] =
      .ok (some ([(basePlayer 1 2700, basePlayer 2 2650),
                  (basePlayer 3 2600, basePlayer 4 2550)], 1/5)) := by
  refine ⟨?_, ?_, ?_⟩
  · simp +decide [handle_bye_assignment, get_eligible_bye_player, stableSort, insertSorted,
      byPointsEloLe, scenarioPool, basePlayer, pick_first, dummyPlayer, List.erase]
  · simp +decide [handle_bye_assignment, get_eligible_bye_player, stableSort, insertSorted,
      byPointsEloLe, scenarioPool, basePlayer, pick_first, dummyPlayer, List.erase]
  · with_unfolding_all rfl

/- ---------- soundness invariant of the recursive pairing search ---------- -/

theorem pairInv_cons (mx : ℕ → ℕ → Option ℚ) (first c : Player) (seen cs : List Player)
    (rp : List (Player × Player)) (rb pb : ℚ)
    (hm : mx first.id c.id = some pb) (hpb : pb ≤ MATCH_BADNESS_LIMIT)
    (hrp : PairingInv mx (seen ++ cs) (rp, rb)) :
    PairingInv mx (first :: (seen ++ c :: cs)) ((first, c) :: rp, pb + rb) := by
  obtain ⟨hperm, hsum, hbnd⟩ := hrp
  refine ⟨?_, ?_, ?_⟩
  · show (pairing_players ((first, c) :: rp)).Perm (first :: (seen ++ c :: cs))
    have he : pairing_players ((first, c) :: rp) = first :: c :: pairing_players rp := rfl
    rw [he]
    refine List.Perm.cons first ?_
    exact List.Perm.trans (List.Perm.cons c hperm) List.perm_middle.symm
  · show pb + rb = (((first, c) :: rp).map (fun q => (mx q.1.id q.2.id).getD 0)).sum
    rw [List.map_cons, List.sum_cons]
    simp only [hm, Option.getD_some]
    exact congrArg (fun z => pb + z) hsum
  · intro q hq
    rcases List.mem_cons.mp hq with hq1 | hq2
    · subst hq1
      exact ⟨pb, hm, hpb⟩
    · exact hbnd q hq2

theorem pairLoop_inv (mx : ℕ → ℕ → Option ℚ) (rec : List Player → ℚ → Option PairingResult)
    (hrec : ∀ (l : List Player) (bound : ℚ) (res : PairingResult),
      rec l bound = some res → PairingInv mx l res)
    (first : Player) :
    ∀ (cs seen : List Player) (bound : ℚ) (best : Option PairingResult)
      (res : PairingResult),
      (∀ r0 : PairingResult, best = some r0 → PairingInv mx (first :: (seen ++ cs)) r0) →
      pairLoop mx rec first seen cs bound best = some res →
      PairingInv mx (first :: (seen ++ cs)) res := by
  intro cs
  induction cs with
  | nil =>
      intro seen bound best res hbest h
      exact hbest res h
  | cons c cs ih =>
      intro seen bound best res hbest h
      have happ : (seen ++ [c]) ++ cs = seen ++ c :: cs := by simp
      have hcont : pairLoop mx rec first (seen ++ [c]) cs bound best = some res →
          PairingInv mx (first :: (seen ++ c :: cs)) res := by
        intro h2
        have hbest2 : ∀ r0 : PairingResult, best = some r0 →
            PairingInv mx (first :: ((seen ++ [c]) ++ cs)) r0 := by
          rw [happ]; exact hbest
        have := ih (seen ++ [c]) bound best res hbest2 h2
        rw [happ] at this
        exact this
      simp only [pairLoop] at h
      cases hm : mx first.id c.id with
      | none =>
          simp only [hm] at h
          exact hcont h
      | some pb =>
          simp only [hm] at h
          by_cases hpr : bound ≤ pb ∨ MATCH_BADNESS_LIMIT < pb
          · rw [if_pos hpr] at h
            exact hcont h
          · rw [if_neg hpr] at h
            have hpb : pb ≤ MATCH_BADNESS_LIMIT := by
              push_neg at hpr
              exact hpr.2
            cases hr : rec (seen ++ cs) (bound - pb) with
            | none =>
                simp only [hr] at h
                exact hcont h
            | some r =>
                obtain ⟨rp, rb⟩ := r
                simp only [hr] at h
                have hnew : PairingInv mx (first :: (seen ++ c :: cs))
                    ((first, c) :: rp, pb + rb) :=
                  pairInv_cons mx first c seen cs rp rb pb hm hpb
                    (hrec (seen ++ cs) (bound - pb) (rp, rb) hr)
                cases best with
                | none =>
                    simp only [if_true] at h
                    by_cases hacc : pb + rb < MATCH_ACCEPTABLE_BADNESS_LIMIT
                    · rw [if_pos hacc] at h
                      have hres : ((first, c) :: rp, pb + rb) = res := Option.some.inj h
                      rw [← hres]
                      exact hnew
                    · rw [if_neg hacc] at h
                      have hbest3 : ∀ r0 : PairingResult,
                          (some ((first, c) :: rp, pb + rb) : Option PairingResult) = some r0 →
                          PairingInv mx (first :: ((seen ++ [c]) ++ cs)) r0 := by
                        intro r0 h0
                        rw [← Option.some.inj h0, happ]
                        exact hnew
                      have := ih (seen ++ [c]) (pb + rb) (some ((first, c) :: rp, pb + rb))
                        res hbest3 h
                      rw [happ] at this
                      exact this
                | some b0 =>
                    obtain ⟨bp, bm⟩ := b0
                    by_cases himp : pb + rb < bm
                    · simp only [decide_eq_true_eq] at h
                      rw [if_pos himp] at h
                      by_cases hacc : pb + rb < MATCH_ACCEPTABLE_BADNESS_LIMIT
                      · rw [if_pos hacc] at h
                        have hres : ((first, c) :: rp, pb + rb) = res := Option.some.inj h
                        rw [← hres]
                        exact hnew
                      · rw [if_neg hacc] at h
                        have hbest3 : ∀ r0 : PairingResult,
                            (some ((first, c) :: rp, pb + rb) : Option PairingResult) = some r0 →
                            PairingInv mx (first :: ((seen ++ [c]) ++ cs)) r0 := by
                          intro r0 h0
                          rw [← Option.some.inj h0, happ]
                          exact hnew
                        have := ih (seen ++ [c]) (pb + rb) (some ((first, c) :: rp, pb + rb))
                          res hbest3 h
                        rw [happ] at this
                        exact this
                    · simp only [decide_eq_true_eq] at h
                      rw [if_neg himp] at h
                      exact hcont h

theorem findRecFuel_inv : ∀ (fuel : ℕ) (mx : ℕ → ℕ → Option ℚ) (l : List Player)
    (bound : ℚ) (res : PairingResult),
    findRecFuel mx fuel l bound = some res → PairingInv mx l res := by
  intro fuel
  induction fuel with
  | zero =>
      intro mx l bound res h
      exact absurd h (by simp [findRecFuel])
  | succ n ih =>
      intro mx l bound res h
      rcases l with _ | ⟨p1, _ | ⟨p2, _ | ⟨p3, t⟩⟩⟩
      · have hres : ([], (0 : ℚ)) = res := by
          simpa [findRecFuel] using h
        rw [← hres]
        exact ⟨List.Perm.refl _, by simp [pairing_players], by simp⟩
      · simp only [findRecFuel] at h
        exact absurd h (by simp [pairLoop])
      · simp only [findRecFuel] at h
        cases hm : mx p1.id p2.id with
        | none => rw [hm] at h; exact absurd h (by simp)
        | some b2 =>
            rw [hm] at h
            simp only at h
            by_cases hc : bound ≤ b2 ∨ MATCH_BADNESS_LIMIT < b2
            · rw [if_pos hc] at h
              exact absurd h (by simp)
            · rw [if_neg hc] at h
              have hres : ([(p1, p2)], b2) = res := Option.some.inj h
              rw [← hres]
              refine ⟨List.Perm.refl _, ?_, ?_⟩
              · simp [hm]
              · intro q hq
                simp only [List.mem_singleton] at hq
                subst hq
                push_neg at hc
                exact ⟨b2, hm, hc.2⟩
      · simp only [findRecFuel] at h
        have hnone : ∀ r0 : PairingResult, (none : Option PairingResult) = some r0 →
            PairingInv mx (p1 :: ([] ++ p2 :: p3 :: t)) r0 := by
          intro r0 h0
          exact absurd h0 (by simp)
        have := pairLoop_inv mx (findRecFuel mx n)
          (fun l2 b2 r2 h2 => ih mx l2 b2 r2 h2) p1 (p2 :: p3 :: t) [] bound none res hnone h
        simpa using this

/-- The core soundness fact behind C1 and C8: a successful result of
`find_optimal_pairing` satisfies the search invariant with respect to the
badness matrix of the input list. -/
theorem find_optimal_inv (ps : List Player) (pr : List (Player × Player)) (t : ℚ)
    (h : find_optimal_pairing ps = .ok (some (pr, t))) :
    PairingInv (badness_matrix_loc ps) ps (pr, t) := by
  unfold find_optimal_pairing at h
  by_cases hemp : ps.isEmpty
  · rw [if_pos hemp] at h
    have he : ps = [] := List.isEmpty_iff.mp hemp
    have hp2 : (([], (0 : ℚ)) : PairingResult) = (pr, t) :=
      Option.some.inj (Except.ok.inj h)
    have hpr : pr = [] := (congrArg Prod.fst hp2).symm
    have ht : t = 0 := (congrArg Prod.snd hp2).symm
    subst he
    subst hpr
    subst ht
    exact ⟨by simp [pairing_players], by simp, by simp⟩
  · rw [if_neg hemp] at h
    by_cases hodd : ps.length % 2 ≠ 0
    · rw [if_pos hodd] at h
      exact absurd h (by simp)
    · rw [if_neg hodd] at h
      cases hfr : find_best_pairing_recursive (badness_matrix_loc ps) ps
          ((ps.length : ℚ) * 4) with
      | none =>
          rw [hfr] at h
          exact absurd h (by simp)
      | some r =>
          obtain ⟨pr', t'⟩ := r
          rw [hfr] at h
          simp only at h
          by_cases hle : t' ≤ (ps.length : ℚ) * 4
          · rw [if_pos hle] at h
            have hp2 : ((pr', t') : PairingResult) = (pr, t) :=
              Option.some.inj (Except.ok.inj h)
            unfold find_best_pairing_recursive at hfr
            rw [← hp2]
            exact findRecFuel_inv (ps.length + 1) (badness_matrix_loc ps) ps
              ((ps.length : ℚ) * 4) (pr', t') hfr
          · rw [if_neg hle] at h
            exact absurd h (by simp)

/- ---------- C1: partition and total-badness soundness ---------- -/

/-- C1: whenever `find_optimal_pairing` succeeds on an even-sized list, every
player of the input occurs in exactly one returned pair (the flattened pairing
is a permutation of the input), and the returned total badness is the sum of
the badness-matrix values of the returned pairs (all of which are finite
matrix entries). -/
theorem claim_C1_partition_and_sum (ps : List Player) (heven : ps.length % 2 = 0)
    (pr : List (Player × Player)) (t : ℚ)
    (h : find_optimal_pairing ps = .ok (some (pr, t))) :
    (pairing_players pr).Perm ps ∧
    t = (pr.map (fun q => (badness_matrix_loc ps q.1.id q.2.id).getD 0)).sum ∧
    ∀ q ∈ pr, (badness_matrix_loc ps q.1.id q.2.id).isSome := by
  have hinv := find_optimal_inv ps pr t h
  refine ⟨hinv.1, hinv.2.1, ?_⟩
  intro q hq
  obtain ⟨b0, hb0, _⟩ := hinv.2.2 q hq
  simp [hb0]

/-- C1, witness at the concrete two-player pool. -/
theorem claim_C1_witness :
    twoPool.length % 2 = 0 ∧
    find_optimal_pairing twoPool =
      .ok (some ([(basePlayer 1 1500, basePlayer 2 1600)], 1/5)) ∧
    (pairing_players [(basePlayer 1 1500, basePlayer 2 1600)]).Perm twoPool ∧
    (1/5 : ℚ) = ([(basePlayer 1 1500, basePlayer 2 1600)].map
      (fun q => (badness_matrix_loc twoPool q.1.id q.2.id).getD 0)).sum := by
  have hfind : find_optimal_pairing twoPool =
      .ok (some ([(basePlayer 1 1500, basePlayer 2 1600)], 1/5)) := by
    with_unfolding_all rfl
  have := claim_C1_partition_and_sum twoPool (by decide)
    [(basePlayer 1 1500, basePlayer 2 1600)] (1/5) hfind
  exact ⟨by decide, hfind, this.1, this.2.1⟩

/- ---------- C8: no rematch in a returned pairing ---------- -/

theorem badness_matrix_some (ps : List Player) (hnd : (ps.map Player.id).Nodup)
    (a b : Player) (ha : a ∈ ps) (hb : b ∈ ps) (v : ℚ)
    (h : badness_matrix_loc ps a.id b.id = some v) : v = calc_badness a b := by
  unfold badness_matrix_loc at h
  cases hia : ps.findIdx? (fun p => p.id == a.id) with
  | none => rw [hia] at h; exact absurd h (by simp)
  | some i =>
      cases hib : ps.findIdx? (fun p => p.id == b.id) with
      | none => rw [hia, hib] at h; exact absurd h (by simp)
      | some j =>
          rw [hia, hib] at h
          simp only at h
          by_cases hij : i < j
          · rw [if_pos hij] at h
            obtain ⟨x, hx, hpx⟩ := findIdx?_some_get (fun p => p.id == a.id) ps i hia
            obtain ⟨y, hy, hpy⟩ := findIdx?_some_get (fun p => p.id == b.id) ps j hib
            rw [hx, hy] at h
            simp only at h
            have hxa : x = a := by
              apply List.inj_on_of_nodup_map hnd (List.get?_mem hx) ha
              simpa using hpx
            have hyb : y = b := by
              apply List.inj_on_of_nodup_map hnd (List.get?_mem hy) hb
              simpa using hpy
            rw [hxa, hyb] at h
            exact (Option.some.inj h).symm
          · rw [if_neg hij] at h
            exact absurd h (by simp)

/-- C8: on a pool of distinct-id players with symmetric opponent histories
where every competitor still has someone they have not played, a successful
`find_optimal_pairing` never returns a pair of players who have already played
each other — the per-pair cutoff (10) is far below the rematch penalty (1000),
so such pairs are pruned in every branch of the search. -/
theorem claim_C8_no_rematch (ps : List Player) (heven : ps.length % 2 = 0)
    (hnd : (ps.map Player.id).Nodup)
    (hsym : ∀ a ∈ ps, ∀ b ∈ ps, (a.id ∈ b.past_opponents ↔ b.id ∈ a.past_opponents))
    (hopt : ∀ a ∈ ps, ∃ b ∈ ps, a.id ≠ b.id ∧ b.id ∉ a.past_opponents)
    (pr : List (Player × Player)) (t : ℚ)
    (h : find_optimal_pairing ps = .ok (some (pr, t))) :
    ∀ q ∈ pr, q.2.id ∉ q.1.past_opponents ∧ q.1.id ∉ q.2.past_opponents := by
  intro q hq
  have hinv := find_optimal_inv ps pr t h
  obtain ⟨b0, hb0, hble⟩ := hinv.2.2 q hq
  have hq1 : q.1 ∈ ps := (hinv.1.mem_iff).mp (by
    unfold pairing_players
    exact List.mem_flatMap.mpr ⟨q, hq, by simp⟩)
  have hq2 : q.2 ∈ ps := (hinv.1.mem_iff).mp (by
    unfold pairing_players
    exact List.mem_flatMap.mpr ⟨q, hq, by simp⟩)
  have hcb : b0 = calc_badness q.1 q.2 := badness_matrix_some ps hnd q.1 q.2 hq1 hq2 b0 hb0
  have hnot : q.2.id ∉ q.1.past_opponents := by
    intro hmem
    have hge : calc_badness q.1 q.2 ≥ 1000 := by
      unfold calc_badness REMATCH_PENALTY ELO_DIFF_DIVISOR
      rw [if_pos hmem]
      have h1 : (q.1.points - q.2.points) ^ 2 ≥ 0 := sq_nonneg _
      have h2 : |(q.1.elo : ℚ) - (q.2.elo : ℚ)| / 500 ≥ 0 := by positivity
      linarith
    rw [hcb] at hble
    unfold MATCH_BADNESS_LIMIT at hble
    linarith
  exact ⟨hnot, fun hmem2 => hnot ((hsym q.2 hq2 q.1 hq1).mpr hmem2)⟩

/-- C8, witness at the concrete two-player pool with empty histories. -/
theorem claim_C8_witness :
    (basePlayer 1 1500, basePlayer 2 1600).2.id ∉
      (basePlayer 1 1500, basePlayer 2 1600).1.past_opponents ∧
    (basePlayer 1 1500, basePlayer 2 1600).1.id ∉
      (basePlayer 1 1500, basePlayer 2 1600).2.past_opponents := by
  exact claim_C8_no_rematch twoPool (by decide) (by decide) (by decide)
    (by decide) [(basePlayer 1 1500, basePlayer 2 1600)] (1/5)
    (by with_unfolding_all rfl) (basePlayer 1 1500, basePlayer 2 1600) (by decide)

/- ---------- the fuel of findRecFuel is semantically invisible ---------- -/

theorem pairLoop_congr (mx : ℕ → ℕ → Option ℚ)
    (rec1 rec2 : List Player → ℚ → Option PairingResult) (first : Player) :
    ∀ (cs seen : List Player) (bound : ℚ) (best : Option PairingResult),
      (∀ (l : List Player) (b : ℚ), l.length = seen.length + cs.length - 1 →
        rec1 l b = rec2 l b) →
      pairLoop mx rec1 first seen cs bound best =
        pairLoop mx rec2 first seen cs bound best := by
  intro cs
  induction cs with
  | nil => intro seen bound best hrec; rfl
  | cons c cs ih =>
      intro seen bound best hrec
      have hlen : (seen ++ cs).length = seen.length + (c :: cs).length - 1 := by
        simp
      have hrec2 : ∀ (l : List Player) (b : ℚ),
          l.length = (seen ++ [c]).length + cs.length - 1 → rec1 l b = rec2 l b := by
        intro l b hl
        apply hrec
        simp only [List.length_append, List.length_cons, List.length_nil] at hl ⊢
        omega
      simp only [pairLoop]
      cases hm : mx first.id c.id with
      | none =>
          simp only [hm]
          exact ih (seen ++ [c]) bound best hrec2
      | some pb =>
          simp only [hm]
          by_cases hpr : bound ≤ pb ∨ MATCH_BADNESS_LIMIT < pb
          · rw [if_pos hpr, if_pos hpr]
            exact ih (seen ++ [c]) bound best hrec2
          · rw [if_neg hpr, if_neg hpr]
            rw [hrec (seen ++ cs) (bound - pb) hlen]
            cases hr : rec2 (seen ++ cs) (bound - pb) with
            | none =>
                simp only [hr]
                exact ih (seen ++ [c]) bound best hrec2
            | some r =>
                obtain ⟨rp, rb⟩ := r
                simp only [hr]
                rw [ih (seen ++ [c]) (pb + rb) (some ((first, c) :: rp, pb + rb)) hrec2,
                  ih (seen ++ [c]) bound best hrec2]

/-- Any fuel exceeding the list length gives the same search result, so the
fuel `length + 1` supplied by `find_best_pairing_recursive` is semantically
invisible: the model never cuts a branch the Python recursion would explore. -/
theorem findRecFuel_eq_of_lt (mx : ℕ → ℕ → Option ℚ) :
    ∀ (f1 f2 : ℕ) (l : List Player) (bound : ℚ),
      l.length < f1 → l.length < f2 →
      findRecFuel mx f1 l bound = findRecFuel mx f2 l bound := by
  intro f1
  induction f1 with
  | zero => intro f2 l bound h1 h2; omega
  | succ n1 ih =>
      intro f2 l bound h1 h2
      cases f2 with
      | zero => omega
      | succ n2 =>
          rcases l with _ | ⟨p1, _ | ⟨p2, _ | ⟨p3, t⟩⟩⟩
          · rfl
          · rfl
          · rfl
          · simp only [findRecFuel]
            apply pairLoop_congr
            intro l2 b2 hl2
            simp only [List.length_nil, List.length_cons] at hl2 h1 h2
            apply ih n2 l2 b2
            · omega
            · omega
